import Mathlib

/-!
Verification of the content-loading pipeline of a static blog site.

The pipeline under study consists of four loader operations:
`getSortedPostsData`, `getAllPostIds`, `getPostData` (posts library) and
`getAboutPageData` (about library).  The loaders read markdown files from a
posts directory (or a fixed about file), parse a front-matter metadata block,
optionally render the markdown body to HTML, and return plain records.

Modelling choices:
* A directory is an association list `List (String × String)` from file name
  to file contents (a real directory has pairwise-distinct names).
* A returned JS object is a `List (String × String)` of key/value bindings in
  insertion order; `objGet` reads a key with JS semantics (a later duplicate
  binding overwrites an earlier one).
* `fs.readFileSync` on a missing path throws `ENOENT`; fallible loaders
  therefore return `Except LoadError _`.
* The external libraries `gray-matter` (front-matter parsing) and
  `remark`/`remark-html` (markdown rendering) are not part of the repository;
  they are modelled from the specification's contracts for them.
* JS string comparison (`<` on strings) is lexicographic by code unit; it is
  modelled by `charListLt` on the character list of a `String`.
-/

/-- Split a list of characters at every occurrence of the character `c`.
Always returns at least one (possibly empty) chunk, like splitting a string
into lines. -/
def splitOnChar (c : Char) : List Char → List (List Char)
  | [] => [[]]
  | a :: as =>
    match splitOnChar c as with
    | [] => [[a]]
    | h :: t => if a = c then [] :: h :: t else (a :: h) :: t

/-- The lines of a string (split on the newline character). -/
def strLines (s : String) : List String :=
  (splitOnChar (Char.ofNat 10) s.data).map String.mk

/-- Join a list of lines back with newline separators. -/
def joinNl : List String → String
  | [] => ""
  | [x] => x
  | x :: y :: t => x ++ String.mk [Char.ofNat 10] ++ joinNl (y :: t)

/-- Break a line at the first occurrence of a colon followed by a space,
returning the text before and after it. -/
def breakColonSpace : List Char → Option (List Char × List Char)
  | [] => none
  | ':' :: ' ' :: rest => some ([], rest)
  | a :: as =>
    match breakColonSpace as with
    | none => none
    | some (k, v) => some (a :: k, v)

/-- Parse one metadata line of the form "key: value". -/
def parseLine (line : String) : Option (String × String) :=
  match breakColonSpace line.data with
  | none => none
  | some (k, v) => some (String.mk k, String.mk v)

/-- The result of front-matter parsing: the metadata key/value pairs and the
body text. -/
structure MatterResult where
  data : List (String × String)
  content : String
deriving DecidableEq, Repr

/-- Modelled from the spec: the external front-matter parser (`gray-matter`).
The metadata block must appear at the very start of the file, delimited by a
recognized fence line before and after; fields are a flat key/value mapping;
if no metadata block is present, `data` is empty and `content` is the entire
input unchanged. -/
def matter (text : String) : MatterResult :=
  match strLines text with
  | "---" :: rest =>
    let meta := rest.takeWhile (fun l => l != "---")
    match rest.dropWhile (fun l => l != "---") with
    | [] => { data := [], content := text }
    | _ :: body => { data := meta.filterMap parseLine, content := joinNl body }
  | _ => { data := [], content := text }

/-- Renderer configuration: whether HTML sanitization is applied and whether
syntax highlighting markup is added. -/
structure RenderConfig where
  sanitize : Bool
  highlight : Bool
deriving DecidableEq, Repr

/-- Whether the string starts with the given characters. -/
def startsWithChars (p : List Char) (s : String) : Bool :=
  List.isPrefixOf p s.data

/-- Modelled from the spec: how the external markdown renderer treats one
line of body text.  An ATX heading becomes an `h1` element; a line of raw
embedded HTML passes through unescaped when sanitization is disabled and is
removed by the sanitizer otherwise; other nonempty lines become paragraphs. -/
def renderLine (cfg : RenderConfig) (line : String) : String :=
  if startsWithChars ['#', ' '] line then
    "<h1>" ++ String.mk (line.data.drop 2) ++ "</h1>"
  else if startsWithChars ['<'] line then
    (if cfg.sanitize then "" else line)
  else if line = "" then ""
  else "<p>" ++ line ++ "</p>"

/-- Modelled from the spec: the external markdown renderer
(`remark`/`remark-html`), a deterministic function from body text and
configuration to an HTML string, with a trailing newline. -/
def renderMarkdown (cfg : RenderConfig) (body : String) : String :=
  joinNl ((strLines body).map (renderLine cfg)) ++ String.mk [Char.ofNat 10]

/-- The markdown suffix as characters. -/
def mdSuffix : List Char := ['.', 'm', 'd']

/-- The id derivation `fileName.replace(/\.md$/, "")`: remove a trailing
".md" if present. -/
def stripMd (s : String) : String :=
  if List.isSuffixOf mdSuffix s.data then
    String.mk (s.data.take (s.data.length - 3))
  else s

/-- The error raised by `fs.readFileSync` on a missing path. -/
inductive LoadError where
  | enoent (path : String)
deriving DecidableEq, Repr

/-- The model of `fs.readdirSync`: the file names of a directory. -/
def readdirSync (dir : List (String × String)) : List String :=
  dir.map Prod.fst

/-- The model of `fs.readFileSync`: the contents of the named file, or an
`ENOENT` error
when no such file exists. -/
def readFileSync (dir : List (String × String)) (name : String) :
    Except LoadError String :=
  match dir.lookup name with
  | some contents => Except.ok contents
  | none => Except.error (LoadError.enoent name)

/-- Reading a file whose name was produced by `readdirSync`: such a read
cannot fail, so the error case is given a default. -/
def readFileD (dir : List (String × String)) (name : String) : String :=
  (dir.lookup name).getD ""

/-- A returned record: key/value bindings in insertion order. -/
abbrev Obj := List (String × String)

/-- Read a field of a record with JS object semantics: a later binding of the
same key overwrites an earlier one. -/
def objGet (o : Obj) (k : String) : Option String :=
  o.reverse.lookup k

/-- Lexicographic comparison of character lists, the model of the JS `<`
operator on strings. -/
def charListLt : List Char → List Char → Bool
  | _, [] => false
  | [], _ :: _ => true
  | a :: as, b :: bs => a < b || (a == b && charListLt as bs)

/-- JS `<` on strings. -/
def strLt (a b : String) : Bool :=
  charListLt a.data b.data

/-- JS `<` applied to possibly-undefined fields: any comparison with
`undefined` is false. -/
def jsLt : Option String → Option String → Bool
  | some a, some b => strLt a b
  | _, _ => false

/-- The sort comparator of `getSortedPostsData`:
`if (a.date < b.date) return 1 else return -1`. -/
def postCompare (a b : Obj) : Int :=
  if jsLt (objGet a "date") (objGet b "date") then 1 else -1

/-- Whether `a` may be placed before `b`: the comparator does not order `a`
after `b`. -/
def postLe (a b : Obj) : Bool :=
  decide (postCompare a b ≤ 0)

/-- Insert an element into a list that is already arranged by the comparator,
before the first element it may precede. -/
def insertPost (x : Obj) : List Obj → List Obj
  | [] => [x]
  | y :: ys => if postLe x y then x :: y :: ys else y :: insertPost x ys

/-- The model of `Array.prototype.sort` with the date comparator: a sort that
arranges the list consistently with the comparator (for a consistent
comparator, the ECMAScript contract of `Array.prototype.sort`). -/
def sortPosts : List Obj → List Obj
  | [] => []
  | x :: xs => insertPost x (sortPosts xs)

/-- The record built for one post inside `getSortedPostsData`: the derived
`id` (file name with the markdown extension stripped) followed by the parsed
front-matter fields.  The body is not rendered here. -/
def postRecord (dir : List (String × String)) (fileName : String) : Obj :=
  ("id", stripMd fileName) :: (matter (readFileD dir fileName)).data

/-- The unsorted post records, one per file of the posts directory. -/
def postsData (dir : List (String × String)) : List Obj :=
  (readdirSync dir).map (postRecord dir)

/-- The loader `getSortedPostsData`: all posts' metadata records, sorted by
the date
comparator. -/
def getSortedPostsData (dir : List (String × String)) : List Obj :=
  sortPosts (postsData dir)

/-- The loader `getAllPostIds`: one identifier per file of the posts
directory, the file
name with the markdown extension stripped.  (The source wraps each identifier
in a `{ params: { id } }` object for the page framework; the wrapper carries
no further data and is dropped here.) -/
def getAllPostIds (dir : List (String × String)) : List String :=
  (readdirSync dir).map stripMd

/-- The loader `getPostData id`: read the file named `id` plus the markdown
extension,
parse front matter, render the body with sanitization disabled and syntax
highlighting enabled, and return `{ id, contentHtml, ...metadata }`. -/
def getPostData (dir : List (String × String)) (id : String) :
    Except LoadError Obj := do
  let fileContents ← readFileSync dir (id ++ ".md")
  let matterResult := matter fileContents
  let contentHtml :=
    renderMarkdown { sanitize := false, highlight := true } matterResult.content
  return ("id", id) :: ("contentHtml", contentHtml) :: matterResult.data

/-- Modelled from the spec and the renderer's documented contract: the
renderer sanitizes its output unless sanitization is explicitly disabled, and
the about loader passes no options to it. -/
def remarkHtmlDefaultSanitize : Bool := true

/-- The loader `getAboutPageData`: read the fixed about file, parse front
matter, render
the body with the renderer's default options (no `sanitize: false` is
passed), and return `{ contentHtml, ...metadata }`. -/
def getAboutPageData (aboutDir : List (String × String)) :
    Except LoadError Obj := do
  let fileContents ← readFileSync aboutDir "about.md"
  let matterResult := matter fileContents
  let contentHtml :=
    renderMarkdown { sanitize := remarkHtmlDefaultSanitize, highlight := false }
      matterResult.content
  return ("contentHtml", contentHtml) :: matterResult.data

/-- The `date` field of a record, as the loader's comparator sees it. -/
def dateOf (o : Obj) : Option String :=
  objGet o "date"

/-- The `date` field of a record, defaulted for statement purposes. -/
def dateD (o : Obj) : String :=
  (dateOf o).getD ""

/-- The "not ordered after" relation between two post records, as decided by
the sort comparator. -/
def notDateLt (a b : Obj) : Prop :=
  jsLt (dateOf a) (dateOf b) = false

/-- A three-post directory dated 2024-01-01, 2024-03-01 and 2024-02-01. -/
def c1Dir : List (String × String) :=
  [("first.md", "---\ndate: 2024-01-01\n---\nbody"),
   ("second.md", "---\ndate: 2024-03-01\n---\nbody"),
   ("third.md", "---\ndate: 2024-02-01\n---\nbody")]

/-- A directory whose file names are distinct and yet collapse to the same
identifier once a trailing markdown extension is stripped. -/
def c2Dir : List (String × String) := [("a", "x"), ("a.md", "y")]

/-- A directory of two well-formed markdown file names. -/
def c2GoodDir : List (String × String) := [("a.md", "x"), ("b.md", "y")]

/-- A posts directory holding a file without the markdown extension. -/
def c3Dir : List (String × String) := [("a", "hello")]

/-- A one-post directory with a well-formed markdown file name and no `id`
front-matter key. -/
def c3GoodDir : List (String × String) := [("p.md", "---\ntitle: T\n---\nbody")]

/-- An about file and a post file whose bodies are one line of raw HTML. -/
def c5AboutDir : List (String × String) := [("about.md", "<b>hi</b>")]

/-- A posts directory with the same raw-HTML body as the about file. -/
def c5PostsDir : List (String × String) := [("raw.md", "<b>hi</b>")]

/-- A one-post directory for the C6 witness. -/
def c6Dir : List (String × String) := [("w.md", "---\ntitle: W\n---\nbody")]

/-- A post file with front matter title "T", date "2024-01-01" and body
"# Hi". -/
def c8Dir : List (String × String) :=
  [("post.md", "---\ntitle: T\ndate: 2024-01-01\n---\n# Hi")]

/-- A one-post directory for the C9 witness. -/
def c9Dir : List (String × String) := [("hello.md", "---\ntitle: H\n---\nbody")]

/-- A post whose front matter itself declares `id` and `contentHtml` keys. -/
def c10Dir : List (String × String) :=
  [("p.md", "---\nid: evil\ncontentHtml: fake\n---\nbody")]

/-- Saying the comparator does not order `a` after `b` is exactly saying
`a.date` is not JS-less-than `b.date`. -/
lemma postLe_eq_not_jsLt (a b : Obj) :
    postLe a b = ! jsLt (dateOf a) (dateOf b) := by
  cases h : jsLt (objGet a "date") (objGet b "date") <;>
    simp [postLe, postCompare, dateOf, h]

/-- Lexicographic comparison of character lists is asymmetric. -/
lemma charListLt_asymm :
    ∀ {a b : List Char}, charListLt a b = true → charListLt b a = false := by
  intro a
  induction a with
  | nil => intro b h; cases b <;> simp [charListLt]
  | cons x xs ih =>
    intro b h
    cases b with
    | nil => simp [charListLt] at h
    | cons y ys =>
      simp only [charListLt, Bool.or_eq_true, Bool.and_eq_true, beq_iff_eq,
        decide_eq_true_eq] at h
      rcases h with h | ⟨rfl, h⟩
      · simp [charListLt, lt_asymm h, LT.lt.ne' h]
      · simp [charListLt, lt_irrefl, ih h]

/-- JS `<` on possibly-undefined date fields is asymmetric. -/
lemma jsLt_asymm {p q : Option String} (h : jsLt p q = true) :
    jsLt q p = false := by
  cases p with
  | none => simp [jsLt] at h
  | some a =>
    cases q with
    | none => simp [jsLt] at h
    | some b =>
      simpa [jsLt, strLt] using charListLt_asymm (by simpa [jsLt, strLt] using h)

/-- The comparator places `a` no later than `b` only when `a.date` is not
below `b.date`. -/
lemma notDateLt_of_postLe {x y : Obj} (h : postLe x y = true) :
    notDateLt x y := by
  have h2 := postLe_eq_not_jsLt x y
  rw [h] at h2
  unfold notDateLt
  cases hj : jsLt (dateOf x) (dateOf y)
  · rfl
  · rw [hj] at h2; simp at h2

/-- When the comparator orders `x` after `y`, the date of `y` is not below
the date of `x`. -/
lemma notDateLt_of_not_postLe {x y : Obj} (h : postLe x y = false) :
    notDateLt y x := by
  have h2 := postLe_eq_not_jsLt x y
  rw [h] at h2
  have hj : jsLt (dateOf x) (dateOf y) = true := by
    cases hj : jsLt (dateOf x) (dateOf y)
    · rw [hj] at h2; simp at h2
    · rfl
  exact jsLt_asymm hj

/-- Inserting an element by the comparator preserves adjacency-sortedness. -/
lemma chain_insertPost (x : Obj) :
    ∀ l : List Obj, List.Chain' notDateLt l →
      List.Chain' notDateLt (insertPost x l) := by
  intro l
  induction l with
  | nil =>
    intro _
    simp only [insertPost]
    exact List.chain'_singleton (R := notDateLt) x
  | cons y ys ih =>
    intro h
    rcases List.chain'_cons'.mp h with ⟨hy, hys⟩
    cases hle : postLe x y with
    | true =>
      simp only [insertPost]
      rw [if_pos hle]
      refine List.chain'_cons'.mpr ⟨?_, h⟩
      intro z hz
      simp only [List.head?_cons, Option.mem_def, Option.some.injEq] at hz
      subst hz
      exact notDateLt_of_postLe hle
    | false =>
      simp only [insertPost]
      rw [if_neg (by simp [hle])]
      refine List.chain'_cons'.mpr ⟨?_, ih hys⟩
      intro z hz
      cases ys with
      | nil =>
        simp only [insertPost, List.head?_cons, Option.mem_def,
          Option.some.injEq] at hz
        subst hz
        exact notDateLt_of_not_postLe hle
      | cons w ws =>
        cases hxw : postLe x w with
        | true =>
          simp only [insertPost] at hz
          rw [if_pos hxw] at hz
          simp only [List.head?_cons, Option.mem_def, Option.some.injEq] at hz
          subst hz
          exact notDateLt_of_not_postLe hle
        | false =>
          simp only [insertPost] at hz
          rw [if_neg (by simp [hxw])] at hz
          simp only [List.head?_cons, Option.mem_def, Option.some.injEq] at hz
          subst hz
          exact hy w (by simp [List.head?_cons])

/-- The sorted post list is adjacency-sorted by the comparator. -/
lemma chain_sortPosts : ∀ l : List Obj, List.Chain' notDateLt (sortPosts l) := by
  intro l
  induction l with
  | nil => simp [sortPosts]
  | cons x xs ih => exact chain_insertPost x (sortPosts xs) ih

/-- Membership in an insertion. -/
lemma mem_insertPost {a x : Obj} :
    ∀ {l : List Obj}, a ∈ insertPost x l ↔ a = x ∨ a ∈ l := by
  intro l
  induction l with
  | nil => simp [insertPost]
  | cons y ys ih =>
    cases h : postLe x y with
    | true => simp [insertPost, h]
    | false =>
      simp only [insertPost, h, Bool.false_eq_true, if_false, List.mem_cons, ih]
      tauto

/-- Sorting permutes membership. -/
lemma mem_sortPosts {a : Obj} :
    ∀ {l : List Obj}, a ∈ sortPosts l ↔ a ∈ l := by
  intro l
  induction l with
  | nil => simp [sortPosts]
  | cons x xs ih => simp [sortPosts, mem_insertPost, ih]

/-- Transfer adjacency-sortedness along an implication that holds on
members of the list. -/
lemma chain_imp_on {R S : Obj → Obj → Prop} :
    ∀ l : List Obj, (∀ a ∈ l, ∀ b ∈ l, R a b → S a b) →
      List.Chain' R l → List.Chain' S l := by
  intro l
  induction l with
  | nil => intro _ _; exact List.chain'_nil
  | cons x xs ih =>
    intro himp hch
    rcases List.chain'_cons'.mp hch with ⟨hx, hxs⟩
    refine List.chain'_cons'.mpr ⟨?_, ?_⟩
    · intro z hz
      exact himp x (by simp) z (List.mem_cons_of_mem x (List.mem_of_mem_head? hz))
        (hx z hz)
    · exact ih (fun a ha b hb => himp a (List.mem_cons_of_mem x ha)
        b (List.mem_cons_of_mem x hb)) hxs

/-- A key present among an association list's keys has a lookup value, and
that value is paired with the key in the list. -/
lemma lookup_of_mem_keys {l : List (String × String)} {k : String}
    (h : k ∈ l.map Prod.fst) : ∃ v, l.lookup k = some v ∧ (k, v) ∈ l := by
  induction l with
  | nil => simp at h
  | cons p ps ih =>
    by_cases hk : k = p.1
    · exact ⟨p.2, by simp [List.lookup, hk], by simp [hk]⟩
    · have hmem : k ∈ ps.map Prod.fst := by
        rcases List.mem_map.mp h with ⟨q, hq, hqk⟩
        rcases List.mem_cons.mp hq with rfl | hq2
        · exact absurd hqk.symm hk
        · exact List.mem_map.mpr ⟨q, hq2, hqk⟩
      rcases ih hmem with ⟨v, hv, hvm⟩
      refine ⟨v, ?_, List.mem_cons_of_mem p hvm⟩
      simpa [List.lookup, beq_eq_false_iff_ne.mpr hk] using hv

/-- A key absent from an association list's keys has no lookup value. -/
lemma lookup_eq_none_of_not_mem_keys {l : List (String × String)} {k : String}
    (h : k ∉ l.map Prod.fst) : l.lookup k = none := by
  induction l with
  | nil => simp [List.lookup]
  | cons p ps ih =>
    have h1 : k ≠ p.1 := fun he => h (by simp [he])
    have h2 : k ∉ ps.map Prod.fst := fun hm => h (by simp [hm])
    simpa [List.lookup, beq_eq_false_iff_ne.mpr h1] using ih h2

/-- Lookup skips a block that does not bind the key. -/
lemma lookup_append_of_not_mem_keys {l₁ l₂ : List (String × String)}
    {k : String} (h : k ∉ l₁.map Prod.fst) :
    (l₁ ++ l₂).lookup k = l₂.lookup k := by
  induction l₁ with
  | nil => simp
  | cons p ps ih =>
    have h1 : k ≠ p.1 := fun he => h (by simp [he])
    have h2 : k ∉ ps.map Prod.fst := fun hm => h (by simp [hm])
    simpa [List.lookup, beq_eq_false_iff_ne.mpr h1] using ih h2

/-- Lookup stops in a block that does bind the key. -/
lemma lookup_append_of_isSome {l₁ l₂ : List (String × String)} {k : String}
    (h : (l₁.lookup k).isSome = true) :
    (l₁ ++ l₂).lookup k = l₁.lookup k := by
  induction l₁ with
  | nil => simp [List.lookup] at h
  | cons p ps ih =>
    by_cases hk : (k == p.1) = true
    · simp [List.lookup, hk]
    · have := ih (by simpa [List.lookup, hk] using h)
      simpa [List.lookup, hk] using this

/-- A later binding of a key is what `objGet` returns, whatever record
fields come before it. -/
lemma objGet_cons_of_objGet {d : Obj} {k v : String} (p : String × String)
    (h : objGet d k = some v) : objGet (p :: d) k = some v := by
  simp only [objGet, List.reverse_cons]
  rw [lookup_append_of_isSome (by simp [objGet] at h; simp [h])]
  exact h

/-- Stripping the markdown extension from a name that carries it leaves the
stem. -/
lemma stripMd_of_data_eq {s : String} {t : List Char}
    (h : s.data = t ++ mdSuffix) : stripMd s = String.mk t := by
  have hs : List.isSuffixOf mdSuffix s.data = true :=
    List.isSuffixOf_iff_suffix.mpr ⟨t, h.symm⟩
  have hlen : s.data.length - 3 = t.length := by
    simp [h, mdSuffix]
  rw [stripMd, if_pos hs, hlen, h]
  have : (t ++ mdSuffix).take t.length = t := List.take_left t mdSuffix
  rw [this]

/-- Appending the markdown extension undoes the strip, for names that end in
the extension. -/
lemma stripMd_append_md {s : String}
    (h : List.isSuffixOf mdSuffix s.data = true) :
    stripMd s ++ ".md" = s := by
  rcases List.isSuffixOf_iff_suffix.mp h with ⟨t, ht⟩
  rw [stripMd_of_data_eq ht.symm]
  have hmd : (".md" : String) = String.mk mdSuffix := rfl
  rw [hmd]
  show String.mk (t ++ mdSuffix) = s
  rw [ht]

/-- Stripping the markdown extension is injective on names that end in the
extension. -/
lemma stripMd_inj {s t : String}
    (hs : List.isSuffixOf mdSuffix s.data = true)
    (ht : List.isSuffixOf mdSuffix t.data = true)
    (h : stripMd s = stripMd t) : s = t := by
  have := congrArg (fun u => u ++ ".md") h
  simpa [stripMd_append_md hs, stripMd_append_md ht] using this

/-- C1: for post files whose front-matter dates are pairwise-distinct
sortable strings, `getSortedPostsData` is sorted descending by the `date`
field under lexical string comparison (every adjacent pair `(a, b)` has
`a.date >= b.date`, i.e. not `a.date < b.date`); in particular three posts
dated 2024-01-01, 2024-03-01, 2024-02-01 come back in the order 2024-03-01,
2024-02-01, 2024-01-01. -/
theorem getSortedPostsData_sorted_desc :
    (∀ dir : List (String × String),
      (∀ r ∈ postsData dir, (dateOf r).isSome = true) →
      List.Pairwise (fun a b : Obj => dateD a ≠ dateD b) (postsData dir) →
      List.Chain' (fun a b : Obj => strLt (dateD a) (dateD b) = false)
        (getSortedPostsData dir)) ∧
    getSortedPostsData c1Dir =
      [[("id", "second"), ("date", "2024-03-01")],
       [("id", "third"), ("date", "2024-02-01")],
       [("id", "first"), ("date", "2024-01-01")]] := by
  constructor
  · intro dir hpres _
    refine chain_imp_on (getSortedPostsData dir) ?_
      (chain_sortPosts (postsData dir))
    intro a ha b hb hab
    have ha2 : (dateOf a).isSome = true := hpres a (mem_sortPosts.mp ha)
    have hb2 : (dateOf b).isSome = true := hpres b (mem_sortPosts.mp hb)
    rcases Option.isSome_iff_exists.mp ha2 with ⟨da, hda⟩
    rcases Option.isSome_iff_exists.mp hb2 with ⟨db, hdb⟩
    unfold notDateLt at hab
    rw [hda, hdb] at hab
    have hlt : strLt da db = false := by simpa [jsLt] using hab
    simpa [dateD, hda, hdb] using hlt
  · decide

/-- Witness for C1: the sortedness statement applied to the concrete
three-post directory. -/
theorem getSortedPostsData_sorted_desc_witness :
    List.Chain' (fun a b : Obj => strLt (dateD a) (dateD b) = false)
      (getSortedPostsData c1Dir) :=
  getSortedPostsData_sorted_desc.1 c1Dir (by decide) (by decide)

/-- C2 counterexample: a directory with the distinct file names "a" and
"a.md" makes `getAllPostIds` return the duplicate identifiers ["a", "a"]. -/
theorem getAllPostIds_dup_counterexample :
    (readdirSync c2Dir).Nodup ∧ getAllPostIds c2Dir = ["a", "a"] ∧
      ¬ (getAllPostIds c2Dir).Nodup :=
  ⟨by decide, by decide, by decide⟩

/-- C2 amended: `getAllPostIds` returns exactly one identifier per file,
each the file name with the markdown extension stripped, and the identifiers
contain no duplicates whenever the file names are unique AND every file name
ends in the markdown extension. -/
theorem getAllPostIds_spec :
    ∀ dir : List (String × String),
      (getAllPostIds dir).length = (readdirSync dir).length ∧
      getAllPostIds dir = (readdirSync dir).map stripMd ∧
      ((readdirSync dir).Nodup →
        (∀ n ∈ readdirSync dir, List.isSuffixOf mdSuffix n.data = true) →
        (getAllPostIds dir).Nodup) := by
  intro dir
  refine ⟨by simp [getAllPostIds], rfl, ?_⟩
  intro hnd hmd
  exact List.Nodup.map_on
    (fun s hs t ht hst => stripMd_inj (hmd s hs) (hmd t ht) hst) hnd

/-- Witness for the amended C2: unique ".md" file names give duplicate-free
identifiers. -/
theorem getAllPostIds_spec_witness : (getAllPostIds c2GoodDir).Nodup :=
  (getAllPostIds_spec c2GoodDir).2.2 (by decide) (by decide)

/-- Unfolding `getPostData` on a successful read. -/
lemma getPostData_eq_of_lookup {dir : List (String × String)} {id c : String}
    (h : dir.lookup (id ++ ".md") = some c) :
    getPostData dir id = Except.ok (("id", id) ::
      ("contentHtml", renderMarkdown { sanitize := false, highlight := true }
        (matter c).content) :: (matter c).data) := by
  unfold getPostData readFileSync
  rw [h]
  rfl

/-- C3 counterexample: the identifier "a" is returned by `getAllPostIds` for
a directory holding a file named "a", yet `getPostData "a"` fails, because it
resolves to the missing path "a.md". -/
theorem getPostData_from_ids_counterexample :
    "a" ∈ getAllPostIds c3Dir ∧
      getPostData c3Dir "a" = Except.error (LoadError.enoent "a.md") :=
  ⟨by decide, rfl⟩

/-- C3 amended: for every identifier returned by `getAllPostIds`, if every
file of the posts directory carries the markdown extension and no post's
front matter itself declares an `id` key, then `getPostData` succeeds and the
`id` field of the returned record equals the requested identifier. -/
theorem getPostData_from_ids_ok :
    ∀ (dir : List (String × String)) (id : String),
      id ∈ getAllPostIds dir →
      (∀ n ∈ readdirSync dir, List.isSuffixOf mdSuffix n.data = true) →
      (∀ p ∈ dir, "id" ∉ (matter (Prod.snd p)).data.map Prod.fst) →
      ∃ r, getPostData dir id = Except.ok r ∧ objGet r "id" = some id := by
  intro dir id hid hmd hfm
  rcases List.mem_map.mp hid with ⟨n, hn, hstrip⟩
  have hmdn := hmd n hn
  have hname : id ++ ".md" = n := by
    rw [← hstrip]
    exact stripMd_append_md hmdn
  have hkey : (id ++ ".md") ∈ dir.map Prod.fst := by
    rw [hname]
    exact hn
  rcases lookup_of_mem_keys hkey with ⟨c, hc, hcm⟩
  have hnid : "id" ∉ ((matter c).data.map Prod.fst) := hfm (id ++ ".md", c) hcm
  refine ⟨_, getPostData_eq_of_lookup hc, ?_⟩
  simp only [objGet, List.reverse_cons]
  have hblock : ("id" : String) ∉
      (((matter c).data.reverse ++ [("contentHtml",
        renderMarkdown { sanitize := false, highlight := true }
          (matter c).content)]).map Prod.fst) := by
    intro hcon
    rw [List.map_append] at hcon
    rcases List.mem_append.mp hcon with h1 | h2
    · rw [List.map_reverse, List.mem_reverse] at h1
      exact hnid h1
    · simp only [List.map_cons, List.map_nil, List.mem_singleton] at h2
      exact absurd h2 (by decide)
  rw [lookup_append_of_not_mem_keys hblock]
  simp [List.lookup]

/-- Witness for the amended C3 at a concrete directory. -/
theorem getPostData_from_ids_ok_witness :
    ∃ r, getPostData c3GoodDir "p" = Except.ok r ∧ objGet r "id" = some "p" :=
  getPostData_from_ids_ok c3GoodDir "p" (by decide) (by decide) (by decide)

/-- C4: for an identifier with no corresponding file, `getPostData` fails
with the file-not-found condition for the resolved path, rather than
returning a default or empty record; the error is the operation's result,
unrecovered. -/
theorem getPostData_missing_enoent :
    ∀ (dir : List (String × String)) (id : String),
      (id ++ ".md") ∉ readdirSync dir →
      getPostData dir id = Except.error (LoadError.enoent (id ++ ".md")) := by
  intro dir id h
  have hl : dir.lookup (id ++ ".md") = none :=
    lookup_eq_none_of_not_mem_keys (by simpa [readdirSync] using h)
  unfold getPostData readFileSync
  rw [hl]
  rfl

/-- Witness for C4: a nonexistent identifier against an empty directory. -/
theorem getPostData_missing_enoent_witness :
    getPostData [] "nonexistent" =
      Except.error (LoadError.enoent "nonexistent.md") :=
  getPostData_missing_enoent [] "nonexistent" (by decide)

/-- C5 counterexample: for the same raw-HTML body, `getAboutPageData`
sanitizes (the raw HTML does not reach `contentHtml`), while `getPostData`
lets it pass through unescaped — the about page is NOT rendered with
sanitization disabled the same as post content. -/
theorem getAboutPageData_sanitize_counterexample :
    getAboutPageData c5AboutDir = Except.ok [("contentHtml", "\n")] ∧
    getPostData c5PostsDir "raw" =
      Except.ok [("id", "raw"), ("contentHtml", "<b>hi</b>\n")] ∧
    ("\n" : String) ≠ "<b>hi</b>\n" :=
  ⟨rfl, rfl, by decide⟩

/-- C5 amended: `getAboutPageData` renders its markdown body with the
renderer's default options — sanitization stays enabled, unlike
`getPostData`, which disables it. -/
theorem getAboutPageData_default_options :
    ∀ (aboutDir : List (String × String)) (c : String),
      aboutDir.lookup "about.md" = some c →
      getAboutPageData aboutDir = Except.ok (("contentHtml",
        renderMarkdown { sanitize := true, highlight := false }
          (matter c).content) :: (matter c).data) := by
  intro aboutDir c h
  unfold getAboutPageData readFileSync
  rw [h]
  rfl

/-- Witness for the amended C5 at the concrete about file. -/
theorem getAboutPageData_default_options_witness :
    getAboutPageData c5AboutDir = Except.ok (("contentHtml",
      renderMarkdown { sanitize := true, highlight := false }
        (matter "<b>hi</b>").content) :: (matter "<b>hi</b>").data) :=
  getAboutPageData_default_options c5AboutDir "<b>hi</b>" (by decide)

/-- C6: for an existing post identifier, `getPostData` resolves the file by
appending the markdown extension, parses front matter, renders the body with
sanitization disabled and syntax highlighting enabled, and returns the `id`,
the rendered `contentHtml` and all front-matter fields. -/
theorem getPostData_structure :
    ∀ (dir : List (String × String)) (id c : String),
      dir.lookup (id ++ ".md") = some c →
      getPostData dir id = Except.ok (("id", id) ::
        ("contentHtml", renderMarkdown { sanitize := false, highlight := true }
          (matter c).content) :: (matter c).data) :=
  fun _ _ _ h => getPostData_eq_of_lookup h

/-- Witness for C6 at a concrete post file. -/
theorem getPostData_structure_witness :
    getPostData c6Dir "w" = Except.ok (("id", "w") ::
      ("contentHtml", renderMarkdown { sanitize := false, highlight := true }
        (matter "---\ntitle: W\n---\nbody").content) ::
      (matter "---\ntitle: W\n---\nbody").data) :=
  getPostData_structure c6Dir "w" "---\ntitle: W\n---\nbody" (by decide)

/-- Unfolding `getAboutPageData` on a successful read. -/
lemma getAboutPageData_eq_of_lookup {aboutDir : List (String × String)}
    {c : String} (h : aboutDir.lookup "about.md" = some c) :
    getAboutPageData aboutDir = Except.ok (("contentHtml",
      renderMarkdown { sanitize := remarkHtmlDefaultSanitize, highlight := false }
        (matter c).content) :: (matter c).data) := by
  unfold getAboutPageData readFileSync
  rw [h]
  rfl

/-- C7: the pipeline is deterministic — every loader operation run twice on
the same unchanged input yields identical output (the loaders are pure
functions of the on-disk input). -/
theorem pipeline_deterministic :
    ∀ (dir aboutDir : List (String × String)) (id : String),
      getSortedPostsData dir = getSortedPostsData dir ∧
      getAllPostIds dir = getAllPostIds dir ∧
      getPostData dir id = getPostData dir id ∧
      getAboutPageData aboutDir = getAboutPageData aboutDir :=
  fun _ _ _ => ⟨rfl, rfl, rfl, rfl⟩

/-- C8: round-trip through parse and render — for a post file with front
matter title "T" and date "2024-01-01" and body "# Hi", `getPostData`
returns a record whose `contentHtml` contains an `h1` element wrapping "Hi",
whose `title` equals "T" and whose `date` equals "2024-01-01". -/
theorem getPostData_round_trip :
    ∃ (r : Obj) (pre suf : String),
      getPostData c8Dir "post" = Except.ok r ∧
      objGet r "contentHtml" = some (pre ++ "<h1>Hi</h1>" ++ suf) ∧
      objGet r "title" = some "T" ∧
      objGet r "date" = some "2024-01-01" :=
  ⟨[("id", "post"), ("contentHtml", "<h1>Hi</h1>\n"),
    ("title", "T"), ("date", "2024-01-01")], "", "\n",
    rfl, by decide, by decide, by decide⟩

/-- C9: `getSortedPostsData` is metadata-only — every record of its output
is exactly the derived `id` followed by the parsed front-matter fields of
one file of the directory; no rendered `contentHtml` field is added (the
markdown renderer does not occur in this operation). -/
theorem getSortedPostsData_metadata_only :
    ∀ (dir : List (String × String)) (r : Obj),
      r ∈ getSortedPostsData dir →
      ∃ fn, fn ∈ readdirSync dir ∧
        r = ("id", stripMd fn) :: (matter (readFileD dir fn)).data := by
  intro dir r hr
  have hp : r ∈ postsData dir := mem_sortPosts.mp hr
  rcases List.mem_map.mp hp with ⟨fn, hfn, hrec⟩
  exact ⟨fn, hfn, hrec.symm⟩

/-- Witness for C9 at a concrete directory and record. -/
theorem getSortedPostsData_metadata_only_witness :
    ∃ fn, fn ∈ readdirSync c9Dir ∧
      ([("id", "hello"), ("title", "H")] : Obj) =
        ("id", stripMd fn) :: (matter (readFileD c9Dir fn)).data :=
  getSortedPostsData_metadata_only c9Dir [("id", "hello"), ("title", "H")]
    (by decide)

/-- C10: the front-matter fields are merged after the derived fields, so a
front-matter key named `id` or `contentHtml` overwrites the derived post
identifier or rendered HTML in the record returned by `getPostData`,
`getSortedPostsData` and `getAboutPageData`. -/
theorem front_matter_overrides_derived :
    (∀ (dir : List (String × String)) (id c v : String),
      dir.lookup (id ++ ".md") = some c →
      objGet (matter c).data "id" = some v →
      ∃ r, getPostData dir id = Except.ok r ∧ objGet r "id" = some v) ∧
    (∀ (dir : List (String × String)) (id c v : String),
      dir.lookup (id ++ ".md") = some c →
      objGet (matter c).data "contentHtml" = some v →
      ∃ r, getPostData dir id = Except.ok r ∧
        objGet r "contentHtml" = some v) ∧
    (∀ (dir : List (String × String)) (fn v : String),
      fn ∈ readdirSync dir →
      objGet (matter (readFileD dir fn)).data "id" = some v →
      ∃ r, r ∈ getSortedPostsData dir ∧ objGet r "id" = some v) ∧
    (∀ (aboutDir : List (String × String)) (c v : String),
      aboutDir.lookup "about.md" = some c →
      objGet (matter c).data "contentHtml" = some v →
      ∃ r, getAboutPageData aboutDir = Except.ok r ∧
        objGet r "contentHtml" = some v) := by
  refine ⟨?_, ?_, ?_, ?_⟩
  · intro dir id c v hc hv
    exact ⟨_, getPostData_eq_of_lookup hc,
      objGet_cons_of_objGet _ (objGet_cons_of_objGet _ hv)⟩
  · intro dir id c v hc hv
    exact ⟨_, getPostData_eq_of_lookup hc,
      objGet_cons_of_objGet _ (objGet_cons_of_objGet _ hv)⟩
  · intro dir fn v hfn hv
    refine ⟨postRecord dir fn,
      mem_sortPosts.mpr (List.mem_map.mpr ⟨fn, hfn, rfl⟩), ?_⟩
    exact objGet_cons_of_objGet _ hv
  · intro aboutDir c v hc hv
    exact ⟨_, getAboutPageData_eq_of_lookup hc, objGet_cons_of_objGet _ hv⟩

/-- Witness for C10: the front-matter `id` wins over the derived one. -/
theorem front_matter_overrides_derived_witness :
    ∃ r, getPostData c10Dir "p" = Except.ok r ∧ objGet r "id" = some "evil" :=
  front_matter_overrides_derived.1 c10Dir "p"
    "---\nid: evil\ncontentHtml: fake\n---\nbody" "evil" (by decide) (by decide)
